import Mathlib

/-!
Verification development for the contextgate MCP proxy
(orimyth/contextgate).  The Go source is shallowly embedded:

* JSON values are modelled by the inductive `Json`; JSON numbers are
  modelled as integers (no claim involves fractional numbers).
* Go's `encoding/json` syntax scanner (`checkValid`, which runs before any
  decoding) is abstracted as a function `String → Option Json` passed as a
  parameter; `none` models a syntax error, in which case `json.Unmarshal`
  leaves the target untouched.  Decoding a `Json` value into a Go struct is
  modelled field by field, following encoding/json semantics: a type
  mismatch records an error but decoding continues, `null` into a
  string/struct/pointer field is a no-op, `json.RawMessage` fields accept
  any value verbatim, unknown keys are ignored, duplicate keys are
  processed in order (later assignments win).  Struct-field matching is
  modelled as exact-name matching (encoding/json's case-insensitive
  fallback is not modelled; no claim involves case-variant keys).
* Go maps are modelled as association lists; deleting removes every
  binding of the key, marshalling a map sorts its keys, and string sets
  are lists queried with `contains`.
* Compiled regular expressions are opaque: a policy pattern is a matcher
  `String → Bool` (its `MatchString`), a PII pattern carries a match
  counter and a replace-all function (its `FindAllStringIndex` length and
  `ReplaceAllString`).
* Goroutines/channels: the approval manager's mutex serialises all state
  transitions, so `Resolve` and the timeout timer body are modelled as
  sequential transitions on the manager state; the decision delivered on
  the (single-slot) `done` channel is the transition's output.
-/

/-- A JSON value.  Numbers are modelled as integers. -/
inductive Json where
  | null : Json
  | bool : Bool → Json
  | num : Int → Json
  | str : String → Json
  | arr : List Json → Json
  | obj : List (String × Json) → Json

/-- Escape a string for JSON output: quote, backslash and the common
control characters (Go's HTML escaping of `<`, `>`, `&` is not modelled;
no concrete input in this file contains those characters). -/
def jsonEscape (s : String) : String :=
  s.data.foldl (fun acc c =>
    if c = '"' then acc ++ "\\\""
    else if c = '\\' then acc ++ "\\\\"
    else if c = '\n' then acc ++ "\\n"
    else if c = '\t' then acc ++ "\\t"
    else if c = '\r' then acc ++ "\\r"
    else acc.push c) ""

mutual

/-- Serialize a JSON value (Go `json.Marshal`; object fields are emitted
in list order — callers that model Go maps sort the fields first). -/
def serialize : Json → String
  | .null => "null"
  | .bool true => "true"
  | .bool false => "false"
  | .num n => toString n
  | .str s => "\"" ++ jsonEscape s ++ "\""
  | .arr xs => "[" ++ serializeArr xs ++ "]"
  | .obj fs => "\x7b" ++ serializeObj fs ++ "\x7d"

def serializeArr : List Json → String
  | [] => ""
  | [x] => serialize x
  | x :: y :: rest => serialize x ++ "," ++ serializeArr (y :: rest)

def serializeObj : List (String × Json) → String
  | [] => ""
  | [(k, v)] => "\"" ++ jsonEscape k ++ "\":" ++ serialize v
  | (k, v) :: f :: rest =>
      "\"" ++ jsonEscape k ++ "\":" ++ serialize v ++ "," ++ serializeObj (f :: rest)

end

/-- Go `*JSONRPCError` (src/internal/proxy/message.go). -/
structure JSONRPCError where
  code : Int := 0
  message : String := ""
  data : Option Json := none

/-- Go `JSONRPCMessage` (src/internal/proxy/message.go).  `id`, `params`
and `result` are `json.RawMessage` in the source and are kept as raw JSON
values; `none` models a nil RawMessage / nil pointer. -/
structure JSONRPCMessage where
  jsonrpc : String := ""
  id : Option Json := none
  method : String := ""
  params : Option Json := none
  result : Option Json := none
  error : Option JSONRPCError := none

/-- Decode one `JSONRPCError` struct from a list of object fields,
threading the (struct, sticky error flag) pair — encoding/json records a
type error and keeps decoding. -/
def decodeErrorFields : List (String × Json) → JSONRPCError → Bool → JSONRPCError × Bool
  | [], e, err => (e, err)
  | (k, v) :: rest, e, err =>
    if k = "code" then
      match v with
      | .num n => decodeErrorFields rest { e with code := n } err
      | .null => decodeErrorFields rest e err
      | _ => decodeErrorFields rest e true
    else if k = "message" then
      match v with
      | .str s => decodeErrorFields rest { e with message := s } err
      | .null => decodeErrorFields rest e err
      | _ => decodeErrorFields rest e true
    else if k = "data" then
      decodeErrorFields rest { e with data := some v } err
    else
      decodeErrorFields rest e err

/-- Decode the `JSONRPCMessage` struct fields.  RawMessage fields accept
any value (including `null`, which `RawMessage.UnmarshalJSON` stores);
`null` into a string field is a no-op; `null` into the `*JSONRPCError`
pointer leaves it nil; a non-object non-null value for `error` allocates
the pointer (encoding/json's `indirect`) and records a type error. -/
def decodeMessageFields : List (String × Json) → JSONRPCMessage → Bool → JSONRPCMessage × Bool
  | [], m, err => (m, err)
  | (k, v) :: rest, m, err =>
    if k = "jsonrpc" then
      match v with
      | .str s => decodeMessageFields rest { m with jsonrpc := s } err
      | .null => decodeMessageFields rest m err
      | _ => decodeMessageFields rest m true
    else if k = "id" then
      decodeMessageFields rest { m with id := some v } err
    else if k = "method" then
      match v with
      | .str s => decodeMessageFields rest { m with method := s } err
      | .null => decodeMessageFields rest m err
      | _ => decodeMessageFields rest m true
    else if k = "params" then
      decodeMessageFields rest { m with params := some v } err
    else if k = "result" then
      decodeMessageFields rest { m with result := some v } err
    else if k = "error" then
      match v with
      | .null => decodeMessageFields rest m err
      | .obj fs =>
          let e0 := match m.error with | some e => e | none => {}
          let (e, err2) := decodeErrorFields fs e0 err
          decodeMessageFields rest { m with error := some e } err2
      | _ => decodeMessageFields rest { m with error := some {} } true
    else
      decodeMessageFields rest m err

/-- `json.Unmarshal` of a syntactically valid JSON value into a
`JSONRPCMessage`: `null` is a no-op, a non-object is a type error that
leaves the struct zeroed, and an object is decoded field by field. -/
def unmarshalJSONRPC : Json → JSONRPCMessage × Bool
  | .null => ({}, false)
  | .obj fs => decodeMessageFields fs {} false
  | _ => ({}, true)

/-- Go `ParseMessage` (src/internal/proxy/message.go:71).  `parseOf`
abstracts encoding/json's syntax scan of the raw bytes: `none` is a
syntax error (in which case `json.Unmarshal` returns before touching the
target, so the message is the zero value).  The Boolean is true iff the
returned Go error is non-nil.  The function is total: parsing never
throws. -/
def ParseMessage (parseOf : String → Option Json) (raw : String) : JSONRPCMessage × Bool :=
  match parseOf raw with
  | none => ({}, true)
  | some j => unmarshalJSONRPC j

/-- Go `JSONRPCMessage.Kind` (src/internal/proxy/message.go:46),
returning the kind constant's string value. -/
def kindOf (m : JSONRPCMessage) : String :=
  if m.method ≠ "" ∧ m.id.isSome then "request"
  else if m.method ≠ "" ∧ m.id.isNone then "notification"
  else if m.error.isSome then "error"
  else "response"

/-- Go `MakeErrorResponse` (src/internal/proxy/message.go:78): marshal of
`JSONRPCMessage{JSONRPC:"2.0", ID:id, Error:&{code, message}}`; fields with
`omitempty` and zero values (method, params, result, a nil id) are
omitted, in struct declaration order. -/
def MakeErrorResponse (id : Option Json) (code : Int) (message : String) : String :=
  serialize (Json.obj
    ([("jsonrpc", Json.str "2.0")]
      ++ (match id with | some i => [("id", i)] | none => [])
      ++ [("error", Json.obj [("code", Json.num code), ("message", Json.str message)])]))

/-! ## Policy engine (src/internal/policy, src/unnamed/part_004) -/

/-- Go `policy.Rule` after `Config.Compile`: a compiled pattern is kept
abstract as its `MatchString` function.  `action` carries the Go
`Action` string ("deny", "require_approval", "audit", or anything the
YAML supplied); empty `direction` means any. -/
structure Rule where
  name : String := ""
  action : String := ""
  methods : List String := []
  tools : List String := []
  direction : String := ""
  compiledPatterns : List (String → Bool) := []

/-- Go `policy.MatchResult` (src/unnamed/part_004:4). -/
structure MatchResult where
  action : String := ""
  matchedRules : List String := []
  denyRule : String := ""
  approvalRule : String := ""

/-- Go `contains` (src/unnamed/part_004:79). -/
def contains : List String → String → Bool
  | [], _ => false
  | item :: rest, s => if item = s then true else contains rest s

/-- Go `ruleMatches` (src/unnamed/part_004:54). -/
def ruleMatches (rule : Rule) (direction method toolName payload : String) : Bool :=
  if rule.direction ≠ "" ∧ rule.direction ≠ direction then false
  else if rule.methods.length > 0 ∧ ¬ contains rule.methods method then false
  else if rule.tools.length > 0 ∧ (toolName = "" ∨ ¬ contains rule.tools toolName) then false
  else rule.compiledPatterns.all (fun re => re payload)

/-- The body of the loop in `Engine.Evaluate` (src/unnamed/part_004:26-49)
for a single rule. -/
def evalStep (result : MatchResult) (rule : Rule) (direction method toolName payload : String) :
    MatchResult :=
  if ¬ ruleMatches rule direction method toolName payload then result
  else
    let result := { result with matchedRules := result.matchedRules ++ [rule.name] }
    if rule.action = "deny" then
      if result.action ≠ "deny" then
        { result with action := "deny", denyRule := rule.name }
      else result
    else if rule.action = "require_approval" then
      if result.action ≠ "deny" then
        { result with action := "require_approval", approvalRule := rule.name }
      else result
    else if rule.action = "audit" then
      if result.action = "" then { result with action := "audit" } else result
    else result

/-- Go `Engine.Evaluate` (src/unnamed/part_004:23): fold the rule list
over a zero `MatchResult`.  The engine's `config.Rules` is the list. -/
def Evaluate (rules : List Rule) (direction method toolName payload : String) : MatchResult :=
  rules.foldl (fun r rule => evalStep r rule direction method toolName payload) {}

/-- Numeric precedence of a policy action string:
deny > require_approval > audit > none. -/
def prec (a : String) : Nat :=
  if a = "deny" then 3
  else if a = "require_approval" then 2
  else if a = "audit" then 1
  else 0

/-- The canonical action string of each precedence level. -/
def actionOfPrec : Nat → String
  | 3 => "deny"
  | 2 => "require_approval"
  | 1 => "audit"
  | _ => ""

/-- Highest precedence among the rules that match the message, the
specification-side reading of the precedence invariant. -/
def matchMax (rules : List Rule) (direction method toolName payload : String) : Nat :=
  rules.foldl
    (fun acc rule =>
      if ruleMatches rule direction method toolName payload then max acc (prec rule.action)
      else acc) 0

/-- Modelled from the spec's words for claim C4 ("track the *first*
`deny` rule as `deny_rule`"): the name of the first matching rule whose
action is deny, with a default for when there is none. -/
def firstDenyNameD (direction method toolName payload : String) :
    List Rule → String → String
  | [], dflt => dflt
  | rule :: rest, dflt =>
    if ruleMatches rule direction method toolName payload ∧ rule.action = "deny" then rule.name
    else firstDenyNameD direction method toolName payload rest dflt

/-- Modelled from the spec's words for claim C4: the first matching rule
with action `require_approval` (the claim's reading of `approval_rule`). -/
def firstApprovalName (direction method toolName payload : String) : List Rule → String
  | [] => ""
  | rule :: rest =>
    if ruleMatches rule direction method toolName payload ∧ rule.action = "require_approval" then
      rule.name
    else firstApprovalName direction method toolName payload rest

/-- What the code actually tracks in `approvalRule`: the last matching
`require_approval` rule seen while no deny rule has matched yet (the
accumulator starts as `""`). -/
def lastApprovalBeforeDeny (direction method toolName payload : String) :
    List Rule → String → String
  | [], acc => acc
  | rule :: rest, acc =>
    if ruleMatches rule direction method toolName payload then
      if rule.action = "deny" then acc
      else if rule.action = "require_approval" then
        lastApprovalBeforeDeny direction method toolName payload rest rule.name
      else lastApprovalBeforeDeny direction method toolName payload rest acc
    else lastApprovalBeforeDeny direction method toolName payload rest acc

/-! ## Approval coordinator (src/unnamed/part_003) -/

/-- Go `ApprovalDecision` (src/unnamed/part_003:13). -/
inductive ApprovalDecision where
  | pending
  | approved
  | denied
  | timeout
deriving DecidableEq

/-- Go `ApprovalDecision.String` (src/unnamed/part_003:22). -/
def decisionString : ApprovalDecision → String
  | .approved => "approved"
  | .denied => "denied"
  | .timeout => "timeout"
  | .pending => "pending"

/-- Go `ApprovalRequest` (src/unnamed/part_003:36); the single-slot
`done` channel is modelled by returning delivered decisions from the
state transitions below. -/
structure ApprovalRequest where
  id : String := ""
  timestamp : Nat := 0
  sessionID : String := ""
  direction : String := ""
  method : String := ""
  toolName : String := ""
  ruleName : String := ""
  payload : String := ""
  decision : String := ""
  decidedAt : Option Nat := none
deriving DecidableEq

/-- The mutex-guarded state of Go `ApprovalManager`
(src/unnamed/part_003:53): the pending map and the id counter. -/
structure ApprovalManagerState where
  pending : List (String × ApprovalRequest) := []
  nextID : Nat := 0
deriving DecidableEq

/-- Go map read `am.pending[id]`. -/
def lookupPending : List (String × ApprovalRequest) → String → Option ApprovalRequest
  | [], _ => none
  | (k, v) :: rest, id0 => if k = id0 then some v else lookupPending rest id0

/-- Go `delete(am.pending, id)`. -/
def deletePending (l : List (String × ApprovalRequest)) (id0 : String) :
    List (String × ApprovalRequest) :=
  l.filter (fun p => p.fst ≠ id0)

/-- Go `ApprovalManager.Submit` (src/unnamed/part_003:75): assign the
next `apr-N` id, mark pending, store the ticket.  Returns the new state
and the stored request (whose `done` channel the caller blocks on). -/
def Submit (st : ApprovalManagerState) (req : ApprovalRequest) :
    ApprovalManagerState × ApprovalRequest :=
  let n := st.nextID + 1
  let req2 := { req with id := "apr-" ++ toString n, decision := "pending" }
  ({ pending := st.pending ++ [(req2.id, req2)], nextID := n }, req2)

/-- Go `ApprovalManager.Resolve` (src/unnamed/part_003:112): if the id is
absent from pending, fail; otherwise stamp the decision, remove the
ticket and deliver the decision on its channel. -/
def Resolve (st : ApprovalManagerState) (id0 : String) (approved : Bool) (now : Nat) :
    Except String (ApprovalManagerState × ApprovalRequest × ApprovalDecision) :=
  match lookupPending st.pending id0 with
  | none => .error ("approval request \"" ++ id0 ++ "\" not found or already resolved")
  | some req =>
      let req2 := { req with decidedAt := some now,
                             decision := if approved then decisionString .approved
                                         else decisionString .denied }
      .ok ({ st with pending := deletePending st.pending id0 },
           req2,
           if approved then ApprovalDecision.approved else ApprovalDecision.denied)

/-- The body of the timeout goroutine in `Submit`
(src/unnamed/part_003:89-106) once the timer fires: re-check existence
under the lock; if the ticket is still pending, stamp timeout, remove it
and deliver; otherwise do nothing. -/
def timerFire (st : ApprovalManagerState) (id0 : String) (now : Nat) :
    ApprovalManagerState × Option (ApprovalRequest × ApprovalDecision) :=
  match lookupPending st.pending id0 with
  | none => (st, none)
  | some req =>
      ({ st with pending := deletePending st.pending id0 },
       some ({ req with decision := decisionString .timeout, decidedAt := some now },
             ApprovalDecision.timeout))

/-! ## Intercepted messages and metadata (src/internal/proxy/message.go,
src/unnamed/part_001) -/

/-- Go `Direction` (src/internal/proxy/message.go:9). -/
inductive Direction where
  | hostToServer
  | serverToHost
deriving DecidableEq

/-- The string value of a `Direction` constant. -/
def dirString : Direction → String
  | .hostToServer => "host_to_server"
  | .serverToHost => "server_to_host"

/-- The dynamic values stored in message metadata (`map[string]any`):
the interceptors only ever store strings, bools, ints and string
slices. -/
inductive MetaVal where
  | strV : String → MetaVal
  | boolV : Bool → MetaVal
  | natV : Nat → MetaVal
  | strListV : List String → MetaVal
deriving DecidableEq

/-- Go `InterceptedMessage` (src/internal/proxy/message.go:60); a nil
metadata map is `none`. -/
structure InterceptedMessage where
  timestamp : Nat := 0
  sessionID : String := ""
  direction : Direction := .hostToServer
  rawBytes : String := ""
  parsed : JSONRPCMessage := {}
  parseErr : Bool := false
  metadata : Option (List (String × MetaVal)) := none

/-- Go map assignment `md[k] = v`. -/
def mdSet (md : List (String × MetaVal)) (k : String) (v : MetaVal) :
    List (String × MetaVal) :=
  md.filter (fun p => p.fst ≠ k) ++ [(k, v)]

/-- `if msg.Metadata == nil { msg.Metadata = make(map[string]any) };
msg.Metadata[k] = v`. -/
def setMeta (msg : InterceptedMessage) (k : String) (v : MetaVal) : InterceptedMessage :=
  { msg with metadata := some (mdSet (msg.metadata.getD []) k v) }

/-- Go map read on the metadata map. -/
def lookupMeta : List (String × MetaVal) → String → Option MetaVal
  | [], _ => none
  | (k, v) :: rest, key => if k = key then some v else lookupMeta rest key

/-- `msg.Metadata[k]` (nil map reads yield nothing). -/
def metaGet (msg : InterceptedMessage) (k : String) : Option MetaVal :=
  match msg.metadata with
  | none => none
  | some md => lookupMeta md k

/-- Go `v, _ := msg.Metadata[k].(string)`: the zero string on a missing
key or a failed type assertion. -/
def metaGetStr (msg : InterceptedMessage) (k : String) : String :=
  match metaGet msg k with
  | some (.strV s) => s
  | _ => ""

/-- The three-way interceptor return value
(src/internal/proxy/interceptor.go:8): `(modifiedBytes, nil)`,
`(nil, nil)` or `(nil, err)`. -/
inductive StepOut where
  | forward : String → StepOut
  | dropMsg : StepOut
  | block : String → StepOut
deriving DecidableEq

/-! ## PII scrubber (src/internal/proxy/message.go, second half) -/

/-- Go `piiPattern`: the compiled regex is abstracted by its two uses,
`len(Regex.FindAllStringIndex(s, -1))` and
`Regex.ReplaceAllString(s, replacement)` (as `replaceAll repl s`). -/
structure PiiPattern where
  name : String := ""
  countMatches : String → Nat
  replaceAll : String → String → String
  label : String := ""

/-- Go `ScrubberInterceptor.scrubString` (message.go:218): apply every
pattern in order to the running result, counting matches and replacing
them with `[REDACTED:<label>]`. -/
def scrubString (patterns : List PiiPattern) (input : String) : String × Nat :=
  patterns.foldl
    (fun acc p =>
      let c := p.countMatches acc.fst
      if c > 0 then (p.replaceAll ("[REDACTED:" ++ p.label ++ "]") acc.fst, acc.snd + c)
      else acc)
    (input, 0)

mutual

/-- Go `ScrubberInterceptor.walkAndScrub` (message.go:194): recursively
walk a parsed JSON value; scrub string leaves, rebuild objects with the
same keys and arrays with the same length, leave other scalars alone.
The `*int` count is threaded as the second component. -/
def walkAndScrub (ps : List PiiPattern) : Json → Json × Nat
  | .str s =>
      let r := scrubString ps s
      (.str r.fst, r.snd)
  | .obj fields =>
      let r := walkFields ps fields
      (.obj r.fst, r.snd)
  | .arr xs =>
      let r := walkArr ps xs
      (.arr r.fst, r.snd)
  | v => (v, 0)

def walkFields (ps : List PiiPattern) : List (String × Json) → List (String × Json) × Nat
  | [] => ([], 0)
  | (k, v) :: rest =>
      let rv := walkAndScrub ps v
      let rr := walkFields ps rest
      ((k, rv.fst) :: rr.fst, rv.snd + rr.snd)

def walkArr (ps : List PiiPattern) : List Json → List Json × Nat
  | [] => ([], 0)
  | v :: rest =>
      let rv := walkAndScrub ps v
      let rr := walkArr ps rest
      (rv.fst :: rr.fst, rv.snd + rr.snd)

end

mutual

/-- Specification-side structural map used to state claim C6: replace
every string leaf by `f`, keep everything else (keys, array shape,
scalars) untouched. -/
def mapStrings (f : String → String) : Json → Json
  | .str s => .str (f s)
  | .obj fields => .obj (mapStringsFields f fields)
  | .arr xs => .arr (mapStringsArr f xs)
  | v => v

def mapStringsFields (f : String → String) : List (String × Json) → List (String × Json)
  | [] => []
  | (k, v) :: rest => (k, mapStrings f v) :: mapStringsFields f rest

def mapStringsArr (f : String → String) : List Json → List Json
  | [] => []
  | v :: rest => mapStrings f v :: mapStringsArr f rest

end

mutual

/-- All object keys occurring anywhere in a JSON value, in document
order. -/
def jsonKeys : Json → List String
  | .obj fields => jsonKeysFields fields
  | .arr xs => jsonKeysArr xs
  | _ => []

def jsonKeysFields : List (String × Json) → List String
  | [] => []
  | (k, v) :: rest => k :: (jsonKeys v ++ jsonKeysFields rest)

def jsonKeysArr : List Json → List String
  | [] => []
  | v :: rest => jsonKeys v ++ jsonKeysArr rest

end

/-- Metadata keys (src/unnamed/part_001:427, tool_analytics_interceptor.go:15). -/
def MetaKeyPolicyAction : String := "policy_action"

def MetaKeyPolicyRule : String := "policy_rule"

def MetaKeyMatchedRules : String := "matched_rules"

def MetaKeyAudit : String := "audit"

def MetaKeyScrubCount : String := "scrub_count"

def MetaKeyToolsPruned : String := "tools_pruned"

/-- Go map read on JSON object fields (first binding; used on lists that
have unique keys). -/
def lookupField : List (String × Json) → String → Option Json
  | [], _ => none
  | (k, v) :: rest, key => if k = key then some v else lookupField rest key

/-- Go map read where duplicate keys were decoded in order — the later
binding wins, as in `encoding/json` decoding into a map. -/
def lookupLastField : List (String × Json) → String → Option Json
  | [], _ => none
  | (k, v) :: rest, key =>
      match lookupLastField rest key with
      | some r => some r
      | none => if k = key then some v else none

/-- Collapse duplicate keys keeping the last binding of each key: the
result of decoding a JSON object into a Go map. -/
def dedupLastFields : List (String × Json) → List (String × Json)
  | [] => []
  | (k, v) :: rest =>
      if (rest.map Prod.fst).contains k then dedupLastFields rest
      else (k, v) :: dedupLastFields rest

/-- Insertion step for sorting object fields by key, as `json.Marshal`
does for Go maps. -/
def insertSortedField (p : String × Json) : List (String × Json) → List (String × Json)
  | [] => [p]
  | q :: rest => if p.fst < q.fst then p :: q :: rest else q :: insertSortedField p rest

/-- Sort object fields by key (`json.Marshal` map key ordering). -/
def sortFields : List (String × Json) → List (String × Json)
  | [] => []
  | p :: rest => insertSortedField p (sortFields rest)

/-- Go map assignment `m[k] = v` on a unique-key field list. -/
def setMapField (l : List (String × Json)) (k : String) (v : Json) : List (String × Json) :=
  l.filter (fun p => p.fst ≠ k) ++ [(k, v)]

mutual

/-- The shape `json.Marshal` gives a value decoded into `any`: object
keys deduplicated (last wins) and sorted. -/
def canonJson : Json → Json
  | .obj fs => .obj (sortFields (dedupLastFields (canonFields fs)))
  | .arr xs => .arr (canonArr xs)
  | v => v

def canonFields : List (String × Json) → List (String × Json)
  | [] => []
  | (k, v) :: rest => (k, canonJson v) :: canonFields rest

def canonArr : List Json → List Json
  | [] => []
  | v :: rest => canonJson v :: canonArr rest

end

/-- Go `ScrubberInterceptor.scrubJSON` (message.go:176): parse the raw
bytes; on a syntax failure scrub the whole payload as a single string;
otherwise walk the parsed value and re-marshal it (marshalling the
`any`-tree sorts map keys and cannot fail on such a tree, so the
marshal-error fallback branch is unreachable in the model). -/
def scrubJSON (ps : List PiiPattern) (parseOf : String → Option Json) (raw : String) :
    String × Nat :=
  match parseOf raw with
  | none => scrubString ps raw
  | some parsed =>
      let r := walkAndScrub ps parsed
      (serialize (canonJson r.fst), r.snd)

/-- Go `ScrubberInterceptor.Intercept` (message.go:151).  The source
always returns a nil error, so the model returns the forwarded bytes and
the (possibly metadata-updated) message.  The process-wide
`totalScrubbed` atomic counter is observability only and is not
modelled. -/
def scrubberIntercept (enabled : Bool) (ps : List PiiPattern)
    (parseOf : String → Option Json) (msg : InterceptedMessage) :
    String × InterceptedMessage :=
  if ¬ enabled then (msg.rawBytes, msg)
  else if msg.direction ≠ .serverToHost then (msg.rawBytes, msg)
  else
    let r := scrubJSON ps parseOf msg.rawBytes
    if r.snd > 0 then (r.fst, setMeta msg MetaKeyScrubCount (.natV r.snd))
    else (r.fst, msg)

/-! ## Tool analytics & pruning (src/internal/proxy/tool_analytics_interceptor.go) -/

/-- Go `PruneConfig` (tool_analytics_interceptor.go:18). -/
structure PruneConfig where
  unusedSessions : Nat := 0
  keepTopK : Nat := 0
  alwaysKeep : List String := []

/-- Go `PruneConfig.enabled` (tool_analytics_interceptor.go:24). -/
def PruneConfig.enabled (c : PruneConfig) : Bool :=
  decide (0 < c.unusedSessions) || decide (0 < c.keepTopK)

/-- Go `pendingRequest` (tool_analytics_interceptor.go:29). -/
structure PendingRequest where
  sessionID : String := ""
  timestamp : Nat := 0
deriving DecidableEq

/-- Go `store.ToolRecord`. -/
structure ToolRecord where
  sessionID : String := ""
  toolName : String := ""
  description : String := ""
deriving DecidableEq

/-- Decode Go's `toolNameOnly` struct field
(tool_analytics_interceptor.go:100) with encoding/json semantics:
threading (name, sticky error). -/
def decodeNameField : List (String × Json) → String → Bool → String × Bool
  | [], nm, err => (nm, err)
  | (k, v) :: rest, nm, err =>
    if k = "name" then
      match v with
      | .str s => decodeNameField rest s err
      | .null => decodeNameField rest nm err
      | _ => decodeNameField rest nm true
    else decodeNameField rest nm err

/-- `json.Unmarshal(raw, &toolNameOnly{})`: `none` models a non-nil
error (the caller keeps such tools without parsing them). -/
def unmarshalToolName : Json → Option String
  | .obj fields =>
      let r := decodeNameField fields "" false
      if r.snd then none else some r.fst
  | .null => some ""
  | _ => none

/-- Decode the anonymous `{Name, Description string}` struct of
`handleToolsListResponse` (tool_analytics_interceptor.go:123). -/
def decodeToolFields : List (String × Json) → String × String → Bool → (String × String) × Bool
  | [], t, err => (t, err)
  | (k, v) :: rest, t, err =>
    if k = "name" then
      match v with
      | .str s => decodeToolFields rest (s, t.snd) err
      | .null => decodeToolFields rest t err
      | _ => decodeToolFields rest t true
    else if k = "description" then
      match v with
      | .str s => decodeToolFields rest (t.fst, s) err
      | .null => decodeToolFields rest t err
      | _ => decodeToolFields rest t true
    else decodeToolFields rest t err

/-- `json.Unmarshal` of one raw tool into `{Name, Description}`;
`none` models a non-nil error (the tool is skipped for registration). -/
def decodeToolRecord : Json → Option (String × String)
  | .obj fields =>
      let r := decodeToolFields fields ("", "") false
      if r.snd then none else some r.fst
  | .null => some ("", "")
  | _ => none

/-- Decode Go's `toolsListResult` struct (tool_analytics_interceptor.go:95):
the `tools` field is a `[]json.RawMessage` (elements kept raw); `null`
resets the slice to nil. -/
def decodeToolsField : List (String × Json) → Option (List Json) → Bool →
    Option (List Json) × Bool
  | [], t, err => (t, err)
  | (k, v) :: rest, t, err =>
    if k = "tools" then
      match v with
      | .arr xs => decodeToolsField rest (some xs) err
      | .null => decodeToolsField rest none err
      | _ => decodeToolsField rest t true
    else decodeToolsField rest t err

/-- `json.Unmarshal(result, &toolsListResult{})`: outer `none` is a
non-nil error; the inner option is the (possibly nil) `Tools` slice. -/
def unmarshalToolsList : Json → Option (Option (List Json))
  | .obj fields =>
      let r := decodeToolsField fields none false
      if r.snd then none else some r.fst
  | .null => some none
  | _ => none

/-- Go map read `usageCounts[name]` with the zero default. -/
def lookupCount : List (String × Nat) → String → Nat
  | [], _ => 0
  | (k, v) :: rest, nm => if k = nm then v else lookupCount rest nm

/-- Go `toolWithUsage` (tool_analytics_interceptor.go:189). -/
structure ToolWithUsage where
  raw : Json
  name : String
  count : Nat

/-- The first loop of `applyPruning` (tool_analytics_interceptor.go:195):
unparseable tools are kept outright, parseable ones become
`toolWithUsage` entries with their historical count. -/
def splitTools (counts : List (String × Nat)) : List Json → List Json × List ToolWithUsage
  | [] => ([], [])
  | raw :: rest =>
      let r := splitTools counts rest
      match unmarshalToolName raw with
      | none => (raw :: r.fst, r.snd)
      | some nm => (r.fst, ⟨raw, nm, lookupCount counts nm⟩ :: r.snd)

/-- Strategy 1 of `applyPruning` (tool_analytics_interceptor.go:212):
with `unusedSessions > 0` keep the names that are always-keep or have a
positive count; otherwise keep every parsed name.  The Go
`map[string]bool` keep-set is modelled as a name list queried with
`contains`. -/
def keepSetUnused (cfg : PruneConfig) (infos : List ToolWithUsage) : List String :=
  if 0 < cfg.unusedSessions then
    (infos.filter (fun ti => contains cfg.alwaysKeep ti.name || decide (0 < ti.count))).map
      (fun ti => ti.name)
  else infos.map (fun ti => ti.name)

/-- Descending insertion sort by count, modelling the `sort.Slice` call
of strategy 2 (ties are ordered arbitrarily by `sort.Slice`; this model
fixes a stable order, which no claim depends on). -/
def insertByCountDesc (t : ToolWithUsage) : List ToolWithUsage → List ToolWithUsage
  | [] => [t]
  | u :: rest => if u.count < t.count then t :: u :: rest else u :: insertByCountDesc t rest

def sortByCountDesc : List ToolWithUsage → List ToolWithUsage
  | [] => []
  | t :: rest => insertByCountDesc t (sortByCountDesc rest)

/-- Strategy 2 of `applyPruning` (tool_analytics_interceptor.go:226):
with `keepTopK > 0`, keep only the top-K non-always-keep tools of the
current keep set (plus every always-keep name). -/
def applyKeepTopK (cfg : PruneConfig) (infos : List ToolWithUsage) (keepSet : List String) :
    List String :=
  if 0 < cfg.keepTopK then
    let inSet := infos.filter
      (fun ti => contains keepSet ti.name && ! contains cfg.alwaysKeep ti.name)
    if cfg.keepTopK < inSet.length then
      cfg.alwaysKeep ++ ((sortByCountDesc inSet).take cfg.keepTopK).map (fun ti => ti.name)
    else keepSet
  else keepSet

/-- The final loop of `applyPruning` (tool_analytics_interceptor.go:257):
partition the parsed tools by keep-set membership. -/
def partitionKept (keepSet : List String) : List ToolWithUsage → List Json × List Json
  | [] => ([], [])
  | ti :: rest =>
      let r := partitionKept keepSet rest
      if contains keepSet ti.name then (ti.raw :: r.fst, r.snd) else (r.fst, ti.raw :: r.snd)

/-- Go `ToolAnalyticsInterceptor.applyPruning`
(tool_analytics_interceptor.go:179): returns (kept, pruned). -/
def applyPruning (cfg : PruneConfig) (tools : List Json) (usageCounts : List (String × Nat)) :
    List Json × List Json :=
  let split := splitTools usageCounts tools
  let keep1 := keepSetUnused cfg split.snd
  let keep2 := applyKeepTopK cfg split.snd keep1
  let keepSet := keep2 ++ cfg.alwaysKeep
  let part := partitionKept keepSet split.snd
  (split.fst ++ part.fst, part.snd)

/-- The mutated `fullResult` map of `rebuildResponse`: the decoded
`map[string]json.RawMessage` (duplicate keys: last wins) with `tools`
replaced by the kept list. -/
def rebuildResultFields (fs : List (String × Json)) (keptTools : List Json) :
    List (String × Json) :=
  setMapField (dedupLastFields fs) "tools" (Json.arr keptTools)

/-- The envelope object marshalled by `rebuildResponse`
(tool_analytics_interceptor.go:268): `{jsonrpc, id, result}` with the
result map's keys sorted (Go map marshalling) and its RawMessage values
kept verbatim.  `none` models the error fallback: a non-object `result`
fails the map unmarshal (JSON `null`, which would leave the map nil and
panic at the insert, is unreachable from the caller, which required a
non-empty `tools` array; it is grouped with the error fallback). -/
def rebuildEnvelope (msg : InterceptedMessage) (keptTools : List Json) :
    Option (List (String × Json)) :=
  match msg.parsed.result with
  | some (Json.obj fs) =>
      some ([("jsonrpc", Json.str "2.0")]
        ++ (match msg.parsed.id with | some i => [("id", i)] | none => [])
        ++ [("result", Json.obj (sortFields (rebuildResultFields fs keptTools)))])
  | _ => none

/-- Go `ToolAnalyticsInterceptor.rebuildResponse`: marshal the envelope,
falling back to the original bytes on any rebuild error. -/
def rebuildResponse (msg : InterceptedMessage) (keptTools : List Json) : String :=
  match rebuildEnvelope msg keptTools with
  | some fields => serialize (Json.obj fields)
  | none => msg.rawBytes

/-- Go `ToolAnalyticsInterceptor.handleToolsListResponse`
(tool_analytics_interceptor.go:104).  The store is modelled by the
`counts` parameter (`GetToolUsageCounts`, taken to succeed) and by
returning the registered `ToolRecord`s (`RegisterTools`). -/
def handleToolsListResponse (cfg : PruneConfig) (counts : List (String × Nat))
    (msg : InterceptedMessage) (pending : PendingRequest) :
    InterceptedMessage × StepOut × List ToolRecord :=
  match msg.parsed.result with
  | none => (msg, .forward msg.rawBytes, [])
  | some resultJson =>
      match unmarshalToolsList resultJson with
      | none => (msg, .forward msg.rawBytes, [])
      | some toolsOpt =>
          let tools := toolsOpt.getD []
          let records := tools.filterMap (fun raw =>
            (decodeToolRecord raw).map (fun t =>
              ({ sessionID := pending.sessionID, toolName := t.fst,
                 description := t.snd } : ToolRecord)))
          if ¬ cfg.enabled then (msg, .forward msg.rawBytes, records)
          else
            let kp := applyPruning cfg tools counts
            if kp.snd.length = 0 then (msg, .forward msg.rawBytes, records)
            else
              let msg2 := setMeta msg MetaKeyToolsPruned (.natV kp.snd.length)
              (msg2, .forward (rebuildResponse msg2 kp.fst), records)

/-- Go map read on the pending-requests map. -/
def lookupPendingReq : List (String × PendingRequest) → String → Option PendingRequest
  | [], _ => none
  | (k, v) :: rest, key => if k = key then some v else lookupPendingReq rest key

/-- Go map assignment on the pending-requests map. -/
def setPendingReq (l : List (String × PendingRequest)) (k : String) (v : PendingRequest) :
    List (String × PendingRequest) :=
  l.filter (fun p => p.fst ≠ k) ++ [(k, v)]

/-- Go `delete` on the pending-requests map. -/
def deletePendingReq (l : List (String × PendingRequest)) (k : String) :
    List (String × PendingRequest) :=
  l.filter (fun p => p.fst ≠ k)

/-- Go `ToolAnalyticsInterceptor.Intercept`
(tool_analytics_interceptor.go:57): record `tools/list` request ids,
correlate responses by raw id bytes (modelled by re-serializing the id),
and hand correlated responses to `handleToolsListResponse`. -/
def toolAnalyticsIntercept (cfg : PruneConfig) (counts : List (String × Nat))
    (pendingIDs : List (String × PendingRequest)) (msg : InterceptedMessage) :
    List (String × PendingRequest) × InterceptedMessage × StepOut × List ToolRecord :=
  if msg.parseErr then (pendingIDs, msg, .forward msg.rawBytes, [])
  else if msg.direction = .hostToServer ∧ msg.parsed.method = "tools/list" then
    match msg.parsed.id with
    | some i =>
        (setPendingReq pendingIDs (serialize i) ⟨msg.sessionID, msg.timestamp⟩,
         msg, .forward msg.rawBytes, [])
    | none => (pendingIDs, msg, .forward msg.rawBytes, [])
  else
    match msg.parsed.id with
    | some i =>
        if msg.direction = .serverToHost ∧ kindOf msg.parsed = "response" then
          match lookupPendingReq pendingIDs (serialize i) with
          | some pending =>
              (deletePendingReq pendingIDs (serialize i),
               handleToolsListResponse cfg counts msg pending)
          | none => (pendingIDs, msg, .forward msg.rawBytes, [])
        else (pendingIDs, msg, .forward msg.rawBytes, [])
    | none => (pendingIDs, msg, .forward msg.rawBytes, [])

/-- Concrete pruning scenario from the spec (scenario 6): the three
advertised tools. -/
def scenarioTools : List Json :=
  [Json.obj [("name", Json.str "read_file"), ("description", Json.str "Read")],
   Json.obj [("name", Json.str "write_file"), ("description", Json.str "Write")],
   Json.obj [("name", Json.str "delete_file"), ("description", Json.str "Delete")]]

/-- Scenario 6 prune configuration. -/
def scenarioCfg : PruneConfig :=
  { unusedSessions := 3, keepTopK := 0, alwaysKeep := ["delete_file"] }

/-- Scenario 6 historical usage counts. -/
def scenarioCounts : List (String × Nat) := [("read_file", 5)]

/-- Scenario 6 correlated response message (id 1). -/
def scenarioMsg : InterceptedMessage :=
  { direction := .serverToHost,
    parsed :=
      { jsonrpc := "2.0", id := some (Json.num 1),
        result := some (Json.obj [("tools", Json.arr scenarioTools)]) } }

/-- Scenario 6 pending correlation entry. -/
def scenarioPending : PendingRequest := { sessionID := "s", timestamp := 0 }

/-- Concrete result fields with a pagination cursor (for the C9
witness). -/
def cursorFields : List (String × Json) :=
  [("nextCursor", Json.str "abc"), ("tools", Json.arr [Json.str "x"])]

/-- A message whose `result` is not a JSON object (for the C9 fallback
witness). -/
def badResultMsg : InterceptedMessage :=
  { rawBytes := "orig", parsed := { result := some (Json.num 5) } }

/-! ## Policy, approval and logging interceptors; the chain and the pump
(src/unnamed/part_001, src/unnamed/part_003, src/internal/proxy) -/

/-- Go `policy.ExtractToolName` (src/internal/policy/policy.go:88): read
`params.name`; empty on nil params or any unmarshal error.  The decode
of the anonymous `{Name string}` struct is the same as `toolNameOnly`'s. -/
def ExtractToolName (params : Option Json) : String :=
  match params with
  | none => ""
  | some j =>
      match unmarshalToolName j with
      | none => ""
      | some nm => nm

/-- Go `PolicyInterceptor.Intercept` (src/unnamed/part_001:446):
evaluate the rules, annotate metadata, and block on a deny. -/
def policyIntercept (rules : List Rule) (msg : InterceptedMessage) :
    InterceptedMessage × StepOut :=
  if msg.parseErr then (msg, .forward msg.rawBytes)
  else
    let toolName := if msg.parsed.method = "tools/call" then
        ExtractToolName msg.parsed.params else ""
    let result := Evaluate rules (dirString msg.direction) msg.parsed.method toolName
      msg.rawBytes
    if result.matchedRules.length = 0 then (msg, .forward msg.rawBytes)
    else
      let msg := setMeta msg MetaKeyMatchedRules (.strListV result.matchedRules)
      if result.action = "deny" then
        (setMeta (setMeta msg MetaKeyPolicyAction (.strV "deny"))
           MetaKeyPolicyRule (.strV result.denyRule),
         .block ("blocked by policy rule \"" ++ result.denyRule ++ "\""))
      else if result.action = "require_approval" then
        (setMeta (setMeta msg MetaKeyPolicyAction (.strV "require_approval"))
           MetaKeyPolicyRule (.strV result.approvalRule),
         .forward msg.rawBytes)
      else if result.action = "audit" then
        (setMeta (setMeta msg MetaKeyPolicyAction (.strV "audit"))
           MetaKeyAudit (.boolV true),
         .forward msg.rawBytes)
      else (msg, .forward msg.rawBytes)

/-- Go `ApprovalInterceptor.Intercept` (src/unnamed/part_003:171).  The
blocking wait on the ticket's channel is modelled by the `decision`
parameter — the value that arrives on the channel (`Submit`'s state
transition is modelled separately above; the context-cancellation arm is
a concurrency aspect outside this sequential model). -/
def approvalIntercept (decision : ApprovalDecision) (msg : InterceptedMessage) :
    InterceptedMessage × StepOut :=
  match msg.metadata with
  | none => (msg, .forward msg.rawBytes)
  | some _ =>
      if metaGetStr msg MetaKeyPolicyAction ≠ "require_approval" then
        (msg, .forward msg.rawBytes)
      else
        let ruleName := metaGetStr msg MetaKeyPolicyRule
        match decision with
        | .approved => (msg, .forward msg.rawBytes)
        | .denied => (msg, .block ("denied by human review (rule: " ++ ruleName ++ ")"))
        | .timeout => (msg, .block ("approval timed out (rule: " ++ ruleName ++ ")"))
        | .pending => (msg, .block "unexpected approval decision")

/-- Go `store.LogEntry` (src/internal/store/models.go), restricted to
the fields the logging interceptor populates; `blocked` has the Go zero
value false. -/
structure LogEntry where
  timestamp : Nat := 0
  sessionID : String := ""
  direction : String := ""
  kind : String := ""
  method : String := ""
  msgID : String := ""
  payload : String := ""
  sizeBytes : Nat := 0
  blocked : Bool := false
  audit : Bool := false
  scrubCount : Nat := 0
  matchedRules : List String := []
  toolName : String := ""
  policyAction : String := ""
deriving DecidableEq

/-- The entry literal built at the top of `LoggingInterceptor.Intercept`
(src/unnamed/part_003:251): note that `Blocked` is never assigned. -/
def baseEntry (msg : InterceptedMessage) : LogEntry :=
  { timestamp := msg.timestamp
    sessionID := msg.sessionID
    direction := dirString msg.direction
    kind := kindOf msg.parsed
    method := msg.parsed.method
    msgID := match msg.parsed.id with | some i => serialize i | none => ""
    payload := msg.rawBytes
    sizeBytes := msg.rawBytes.length }

/-- `if audit, ok := md[MetaKeyAudit].(bool); ok && audit`. -/
def applyAuditMeta (e : LogEntry) (md : List (String × MetaVal)) : LogEntry :=
  match lookupMeta md MetaKeyAudit with
  | some (.boolV true) => { e with audit := true }
  | _ => e

/-- `if scrubCount, ok := md[MetaKeyScrubCount].(int); ok`. -/
def applyScrubMeta (e : LogEntry) (md : List (String × MetaVal)) : LogEntry :=
  match lookupMeta md MetaKeyScrubCount with
  | some (.natV c) => { e with scrubCount := c }
  | _ => e

/-- `if rules, ok := md[MetaKeyMatchedRules].([]string); ok`. -/
def applyRulesMeta (e : LogEntry) (md : List (String × MetaVal)) : LogEntry :=
  match lookupMeta md MetaKeyMatchedRules with
  | some (.strListV rs) => { e with matchedRules := rs }
  | _ => e

/-- `if action, ok := md[MetaKeyPolicyAction].(string); ok`. -/
def applyActionMeta (e : LogEntry) (md : List (String × MetaVal)) : LogEntry :=
  match lookupMeta md MetaKeyPolicyAction with
  | some (.strV a) => { e with policyAction := a }
  | _ => e

/-- Go `LoggingInterceptor.Intercept` (src/unnamed/part_003:250): build
the entry, read the metadata annotations of earlier interceptors,
extract the tool name for `tools/call`, enqueue/publish (the returned
entry list), and forward unchanged. -/
def loggingIntercept (msg : InterceptedMessage) :
    InterceptedMessage × StepOut × List LogEntry :=
  let entry := baseEntry msg
  let entry := match msg.metadata with
    | none => entry
    | some md => applyActionMeta (applyRulesMeta (applyScrubMeta (applyAuditMeta entry md) md) md) md
  let entry := if msg.parsed.method = "tools/call" then
      { entry with toolName := ExtractToolName msg.parsed.params } else entry
  (msg, .forward msg.rawBytes, [entry])

/-- The outcome of `InterceptorChain.Process`: surviving bytes, a silent
drop, or a block error. -/
inductive ChainOutcome where
  | forward : String → ChainOutcome
  | dropped : ChainOutcome
  | blocked : String → ChainOutcome
deriving DecidableEq

/-- A chain interceptor as `InterceptorChain.Process` sees it: it may
update the message (metadata), returns the three-way result, and lists
the log entries it persisted. -/
def ChainInterceptor : Type :=
  InterceptedMessage → InterceptedMessage × StepOut × List LogEntry

/-- The loop of Go `InterceptorChain.Process`
(src/internal/proxy/interceptor.go:35): before each interceptor the
message's raw bytes become the current bytes; a block or drop stops the
chain. -/
def chainRun : List ChainInterceptor → InterceptedMessage → String →
    ChainOutcome × List LogEntry
  | [], _, raw => (.forward raw, [])
  | i :: rest, msg, raw =>
      let r := i { msg with rawBytes := raw }
      match r.snd.fst with
      | .block e => (.blocked e, r.snd.snd)
      | .dropMsg => (.dropped, r.snd.snd)
      | .forward b =>
          let rr := chainRun rest r.fst b
          (rr.fst, r.snd.snd ++ rr.snd)

/-- Go `InterceptorChain.Process`. -/
def Process (ints : List ChainInterceptor) (msg : InterceptedMessage) :
    ChainOutcome × List LogEntry :=
  chainRun ints msg msg.rawBytes

/-- Go `Proxy.sendBlockError` (src/internal/proxy/proxy.go:185): the
bytes written back to the sender — nothing for a message without an id,
otherwise the synthesized `-32600` error response with a trailing
newline. -/
def sendBlockError (parsed : JSONRPCMessage) (emsg : String) : Option String :=
  match parsed.id with
  | none => none
  | some i => some (MakeErrorResponse (some i) (-32600) emsg ++ "\n")

/-- What one iteration of `Proxy.pipeMessages`
(src/internal/proxy/proxy.go:125-180) does with one scanned line: what
is written to the destination, whether the interceptor chain ran, what
(if anything) was written back to the sender, and the log entries the
chain persisted. -/
structure LineOutcome where
  wroteToDst : Option String := none
  ranChain : Bool := false
  sentBlockError : Option String := none
  logs : List LogEntry := []
deriving DecidableEq

/-- One iteration of `Proxy.pipeMessages` on a scanned line: empty lines
are skipped outright; unparseable lines are forwarded verbatim without
running the chain; otherwise the chain decides between forward (plus
trailing newline), silent drop, and block (answered to the sender). -/
def processLine (parseOf : String → Option Json)
    (chain : InterceptedMessage → ChainOutcome × List LogEntry)
    (now : Nat) (sid : String) (dir : Direction) (line : String) : LineOutcome :=
  if line.length = 0 then {}
  else
    let pr := ParseMessage parseOf line
    let msg : InterceptedMessage :=
      { timestamp := now, sessionID := sid, direction := dir, rawBytes := line,
        parsed := pr.fst, parseErr := pr.snd }
    if pr.snd then { wroteToDst := some (line ++ "\n") }
    else
      match chain msg with
      | (.blocked e, logs) =>
          { ranChain := true, sentBlockError := sendBlockError pr.fst e, logs := logs }
      | (.dropped, logs) => { ranChain := true, logs := logs }
      | (.forward bytes, logs) =>
          { wroteToDst := some (bytes ++ "\n"), ranChain := true, logs := logs }

/-- The deny rule of the spec's scenario 1 ("deny by tool name"). -/
def blockShellRule : Rule :=
  { name := "block-shell", action := "deny", methods := ["tools/call"],
    tools := ["execute_command"] }

/-- Scenario 1 request (`id 9`, `tools/call execute_command`) as a JSON
value; the host line is its serialization. -/
def denyScenarioJson : Json :=
  Json.obj [("jsonrpc", Json.str "2.0"), ("id", Json.num 9),
            ("method", Json.str "tools/call"),
            ("params", Json.obj [("name", Json.str "execute_command")])]

/-- The five-interceptor chain built by `main.go` (Policy → Scrubber →
Approval → ToolAnalytics → Logger) with the scenario-1 policy, scrubbing
disabled and pruning disabled, adapted to the per-message chain
signature.  The approval decision parameter and the analytics
correlation map are irrelevant to a policy deny: the chain stops at the
first interceptor. -/
def denyScenarioChain : List ChainInterceptor :=
  [fun m => (let r := policyIntercept [blockShellRule] m; (r.fst, r.snd, [])),
   fun m => (let r := scrubberIntercept false [] (fun _ => none) m; (r.snd, .forward r.fst, [])),
   fun m => (let r := approvalIntercept .pending m; (r.fst, r.snd, [])),
   fun m => (let r := toolAnalyticsIntercept {} [] [] m; (r.snd.fst, r.snd.snd.fst, [])),
   fun m => loggingIntercept m]

/-! ### Precedence lemmas for the policy engine -/

lemma prec_le_three (a : String) : prec a ≤ 3 := by
  unfold prec; split_ifs <;> omega

lemma prec_actionOfPrec (n : Nat) (h : n ≤ 3) : prec (actionOfPrec n) = n := by
  interval_cases n <;> rfl

lemma actionOfPrec_canonical (n : Nat) :
    actionOfPrec n = "deny" ∨ actionOfPrec n = "require_approval" ∨
    actionOfPrec n = "audit" ∨ actionOfPrec n = "" := by
  match n with
  | 0 => simp [actionOfPrec]
  | 1 => simp [actionOfPrec]
  | 2 => simp [actionOfPrec]
  | 3 => simp [actionOfPrec]
  | n + 4 => simp [actionOfPrec]

lemma evalStep_action (r : MatchResult) (rule : Rule) (d m t p : String)
    (h : r.action = "deny" ∨ r.action = "require_approval" ∨ r.action = "audit" ∨ r.action = "") :
    (evalStep r rule d m t p).action =
      actionOfPrec (if ruleMatches rule d m t p then max (prec r.action) (prec rule.action)
        else prec r.action) := by
  by_cases hm : ruleMatches rule d m t p
  · by_cases h1 : rule.action = "deny"
    · rcases h with h | h | h | h <;>
        simp [evalStep, hm, h1, h, prec, actionOfPrec]
    · by_cases h2 : rule.action = "require_approval"
      · rcases h with h | h | h | h <;>
          simp [evalStep, hm, h1, h2, h, prec, actionOfPrec]
      · by_cases h3 : rule.action = "audit"
        · rcases h with h | h | h | h <;>
            simp [evalStep, hm, h1, h2, h3, h, prec, actionOfPrec]
        · rcases h with h | h | h | h <;>
            simp [evalStep, hm, h1, h2, h3, h, prec, actionOfPrec]
  · rcases h with h | h | h | h <;> simp [evalStep, hm, h, prec, actionOfPrec]

lemma evaluate_fold_action (d m t p : String) :
    ∀ (rules : List Rule) (r : MatchResult),
      r.action = "deny" ∨ r.action = "require_approval" ∨ r.action = "audit" ∨ r.action = "" →
      (rules.foldl (fun acc rule => evalStep acc rule d m t p) r).action =
        actionOfPrec (rules.foldl
          (fun acc rule => if ruleMatches rule d m t p then max acc (prec rule.action) else acc)
          (prec r.action))
  | [], r, h => by
      rcases h with h | h | h | h <;> simp [h, prec, actionOfPrec]
  | rule :: rest, r, h => by
      have hstep := evalStep_action r rule d m t p h
      have hcanon : (evalStep r rule d m t p).action = "deny" ∨
          (evalStep r rule d m t p).action = "require_approval" ∨
          (evalStep r rule d m t p).action = "audit" ∨
          (evalStep r rule d m t p).action = "" := by
        rw [hstep]; exact actionOfPrec_canonical _
      have hk : prec (evalStep r rule d m t p).action =
          (if ruleMatches rule d m t p then max (prec r.action) (prec rule.action)
            else prec r.action) := by
        rw [hstep, prec_actionOfPrec]
        split
        · exact max_le (prec_le_three _) (prec_le_three _)
        · exact prec_le_three _
      have ih := evaluate_fold_action d m t p rest (evalStep r rule d m t p) hcanon
      rw [List.foldl_cons, List.foldl_cons, ih, hk]

lemma matchMax_fold_le (d m t p : String) :
    ∀ (rules : List Rule) (acc : Nat), acc ≤ 3 →
      rules.foldl
        (fun a rule => if ruleMatches rule d m t p then max a (prec rule.action) else a) acc ≤ 3
  | [], _, h => h
  | rule :: rest, acc, h => by
      rw [List.foldl_cons]
      apply matchMax_fold_le d m t p rest
      split
      · exact max_le h (prec_le_three _)
      · exact h

lemma matchMax_fold_mono (d m t p : String) :
    ∀ (rules : List Rule) (acc : Nat),
      acc ≤ rules.foldl
        (fun a rule => if ruleMatches rule d m t p then max a (prec rule.action) else a) acc
  | [], _ => le_refl _
  | rule :: rest, acc => by
      rw [List.foldl_cons]
      refine le_trans ?_ (matchMax_fold_mono d m t p rest _)
      split
      · exact le_max_left _ _
      · exact le_refl _

lemma matchMax_fold_ge (d m t p : String) :
    ∀ (rules : List Rule) (acc : Nat) (rule : Rule), rule ∈ rules →
      ruleMatches rule d m t p = true →
      prec rule.action ≤ rules.foldl
        (fun a r0 => if ruleMatches r0 d m t p then max a (prec r0.action) else a) acc
  | r0 :: rest, acc, rule, hmem, hmatch => by
      rw [List.foldl_cons]
      rcases List.mem_cons.mp hmem with heq | hmem2
      · subst heq
        refine le_trans ?_ (matchMax_fold_mono d m t p rest _)
        simp [hmatch]
      · exact matchMax_fold_ge d m t p rest _ rule hmem2 hmatch

/-- C1.  For every ordered rule list and every message, the final action
produced by `Engine.Evaluate` equals the highest-precedence action among
the matching rules, with precedence deny > require_approval > audit >
none, and once a deny rule has matched the final action is deny
regardless of later matches. -/
theorem Evaluate_action_precedence (rules : List Rule) (d m t p : String) :
    (Evaluate rules d m t p).action = actionOfPrec (matchMax rules d m t p) ∧
    ((∃ rule ∈ rules, ruleMatches rule d m t p = true ∧ rule.action = "deny") →
      (Evaluate rules d m t p).action = "deny") := by
  have hmain := evaluate_fold_action d m t p rules {}
    (Or.inr (Or.inr (Or.inr rfl)))
  have hfirst : (Evaluate rules d m t p).action = actionOfPrec (matchMax rules d m t p) := by
    have hz : prec (({} : MatchResult).action) = 0 := by rfl
    rw [Evaluate, hmain, matchMax, hz]
  refine ⟨hfirst, ?_⟩
  rintro ⟨rule, hmem, hmatch, hdeny⟩
  have hge : 3 ≤ matchMax rules d m t p := by
    have := matchMax_fold_ge d m t p rules 0 rule hmem hmatch
    rwa [hdeny] at this
  have hle : matchMax rules d m t p ≤ 3 := matchMax_fold_le d m t p rules 0 (by omega)
  have h3 : matchMax rules d m t p = 3 := le_antisymm hle hge
  rw [hfirst, h3]; rfl

/-- Witness for C1: a matching deny rule forces the final action to be
deny (spec scenario "deny by tool name"). -/
theorem Evaluate_action_precedence_witness :
    (Evaluate
      [{ name := "block-shell", action := "deny", methods := ["tools/call"],
         tools := ["execute_command"] }]
      "host_to_server" "tools/call" "execute_command"
      "payload").action = "deny" :=
  (Evaluate_action_precedence _ _ _ _ _).2
    ⟨_, List.mem_singleton.mpr rfl, by decide, rfl⟩

/-! ### Deny/approval rule tracking (claim C4) -/

lemma evalStep_deny_frozen (r : MatchResult) (rule : Rule) (d m t p : String)
    (h : r.action = "deny") :
    (evalStep r rule d m t p).action = "deny" ∧
    (evalStep r rule d m t p).denyRule = r.denyRule ∧
    (evalStep r rule d m t p).approvalRule = r.approvalRule := by
  by_cases hm : ruleMatches rule d m t p
  · by_cases h1 : rule.action = "deny"
    · simp [evalStep, hm, h1, h]
    · by_cases h2 : rule.action = "require_approval"
      · simp [evalStep, hm, h1, h2, h]
      · by_cases h3 : rule.action = "audit"
        · simp [evalStep, hm, h1, h2, h3, h]
        · simp [evalStep, hm, h1, h2, h3, h]
  · simp [evalStep, hm, h]

lemma evaluate_fold_deny_frozen (d m t p : String) :
    ∀ (rules : List Rule) (r : MatchResult), r.action = "deny" →
      (rules.foldl (fun acc rule => evalStep acc rule d m t p) r).action = "deny" ∧
      (rules.foldl (fun acc rule => evalStep acc rule d m t p) r).denyRule = r.denyRule ∧
      (rules.foldl (fun acc rule => evalStep acc rule d m t p) r).approvalRule = r.approvalRule
  | [], r, h => ⟨h, rfl, rfl⟩
  | rule :: rest, r, h => by
      obtain ⟨ha, hd, hp⟩ := evalStep_deny_frozen r rule d m t p h
      obtain ⟨ih1, ih2, ih3⟩ :=
        evaluate_fold_deny_frozen d m t p rest (evalStep r rule d m t p) ha
      exact ⟨by rw [List.foldl_cons]; exact ih1,
             by rw [List.foldl_cons, ih2, hd],
             by rw [List.foldl_cons, ih3, hp]⟩

lemma evaluate_fold_tracking (d m t p : String) :
    ∀ (rules : List Rule) (r : MatchResult), r.action ≠ "deny" →
      (rules.foldl (fun acc rule => evalStep acc rule d m t p) r).denyRule =
        firstDenyNameD d m t p rules r.denyRule ∧
      (rules.foldl (fun acc rule => evalStep acc rule d m t p) r).approvalRule =
        lastApprovalBeforeDeny d m t p rules r.approvalRule
  | [], r, _ => ⟨rfl, rfl⟩
  | rule :: rest, r, h => by
      rw [List.foldl_cons]
      by_cases hm : ruleMatches rule d m t p
      · by_cases h1 : rule.action = "deny"
        · have hr : evalStep r rule d m t p =
              { r with matchedRules := r.matchedRules ++ [rule.name],
                       action := "deny", denyRule := rule.name } := by
            simp [evalStep, hm, h1, h]
          obtain ⟨_, hd, hp⟩ :=
            evaluate_fold_deny_frozen d m t p rest (evalStep r rule d m t p) (by rw [hr])
          rw [hd, hp, hr]
          constructor
          · simp [firstDenyNameD, hm, h1]
          · simp [lastApprovalBeforeDeny, hm, h1]
        · by_cases h2 : rule.action = "require_approval"
          · have hr : evalStep r rule d m t p =
                { r with matchedRules := r.matchedRules ++ [rule.name],
                         action := "require_approval", approvalRule := rule.name } := by
              simp [evalStep, hm, h1, h2, h]
            obtain ⟨ih1, ih2⟩ := evaluate_fold_tracking d m t p rest
              (evalStep r rule d m t p) (by rw [hr]; simp)
            rw [ih1, ih2, hr]
            constructor
            · simp [firstDenyNameD, hm, h1]
            · simp [lastApprovalBeforeDeny, hm, h1, h2]
          · by_cases h3 : rule.action = "audit"
            · by_cases hz : r.action = ""
              · have hr : evalStep r rule d m t p =
                    { r with matchedRules := r.matchedRules ++ [rule.name],
                             action := "audit" } := by
                  simp [evalStep, hm, h1, h2, h3, hz]
                obtain ⟨ih1, ih2⟩ := evaluate_fold_tracking d m t p rest
                  (evalStep r rule d m t p) (by rw [hr]; simp)
                rw [ih1, ih2, hr]
                constructor
                · simp [firstDenyNameD, hm, h1]
                · simp [lastApprovalBeforeDeny, hm, h1, h2]
              · have hr : evalStep r rule d m t p =
                    { r with matchedRules := r.matchedRules ++ [rule.name] } := by
                  simp [evalStep, hm, h1, h2, h3, hz]
                obtain ⟨ih1, ih2⟩ := evaluate_fold_tracking d m t p rest
                  (evalStep r rule d m t p) (by rw [hr]; simpa using h)
                rw [ih1, ih2, hr]
                constructor
                · simp [firstDenyNameD, hm, h1]
                · simp [lastApprovalBeforeDeny, hm, h1, h2]
            · have hr : evalStep r rule d m t p =
                  { r with matchedRules := r.matchedRules ++ [rule.name] } := by
                simp [evalStep, hm, h1, h2, h3]
              obtain ⟨ih1, ih2⟩ := evaluate_fold_tracking d m t p rest
                (evalStep r rule d m t p) (by rw [hr]; simpa using h)
              rw [ih1, ih2, hr]
              constructor
              · simp [firstDenyNameD, hm, h1]
              · simp [lastApprovalBeforeDeny, hm, h1, h2]
      · have hr : evalStep r rule d m t p = r := by simp [evalStep, hm]
        obtain ⟨ih1, ih2⟩ := evaluate_fold_tracking d m t p rest
          (evalStep r rule d m t p) (by rw [hr]; exact h)
        rw [ih1, ih2, hr]
        constructor
        · simp [firstDenyNameD, hm]
        · simp [lastApprovalBeforeDeny, hm]

/-- Counterexample for C4: with two matching `require_approval` rules
"A" then "B", `Evaluate` reports `approval_rule = "B"` (each matching
require_approval rule overwrites the field), while the first matching
require_approval rule is "A". -/
theorem Evaluate_approvalRule_not_first :
    (Evaluate [{ name := "A", action := "require_approval" },
               { name := "B", action := "require_approval" }]
        "host_to_server" "tools/call" "" "payload").approvalRule ≠
      firstApprovalName "host_to_server" "tools/call" "" "payload"
        [{ name := "A", action := "require_approval" },
         { name := "B", action := "require_approval" }] := by
  decide

/-- C4 (amended).  `deny_rule` is the name of the first matching rule
with action deny; `approval_rule` is the name of the last matching
`require_approval` rule among those matched before any deny rule has
matched (so the last one overall when no deny rule matches), not the
first. -/
theorem Evaluate_rule_tracking (rules : List Rule) (d m t p : String) :
    (Evaluate rules d m t p).denyRule = firstDenyNameD d m t p rules "" ∧
    (Evaluate rules d m t p).approvalRule = lastApprovalBeforeDeny d m t p rules "" := by
  have := evaluate_fold_tracking d m t p rules {} (by decide)
  simpa [Evaluate] using this

/-! ### Parsing (claim C5) -/

/-- Counterexample for C5: on the syntactically valid input
`{"jsonrpc":1,"method":"x"}` the Go decoder records a type error for the
`jsonrpc` field (number into string) but keeps decoding, so
`ParseMessage` returns a non-nil error together with a message whose
`method` field is populated — not the zero value. -/
theorem ParseMessage_populates_on_type_error :
    (ParseMessage (fun _ => some (Json.obj [("jsonrpc", Json.num 1), ("method", Json.str "x")]))
        "\x7b\"jsonrpc\":1,\"method\":\"x\"\x7d").snd = true ∧
    (ParseMessage (fun _ => some (Json.obj [("jsonrpc", Json.num 1), ("method", Json.str "x")]))
        "\x7b\"jsonrpc\":1,\"method\":\"x\"\x7d").fst.method = "x" ∧
    ("x" : String) ≠ "" := by
  refine ⟨rfl, rfl, by decide⟩

/-- C5 (amended).  `ParseMessage` never throws (it is a total function),
and whenever parsing fails because the input is not syntactically valid
JSON, the returned message is the zero value and the error is non-null;
when the input is valid JSON but a field fails its type check, the error
is non-null while successfully decoded fields remain populated. -/
theorem ParseMessage_zero_on_syntax_error (parseOf : String → Option Json) (raw : String)
    (h : parseOf raw = none) :
    ParseMessage parseOf raw = ({}, true) := by
  simp [ParseMessage, h]

/-- Witness for C5's amended theorem at a concrete unparseable input. -/
theorem ParseMessage_zero_on_syntax_error_witness :
    ParseMessage (fun _ => none) "not json" = ({}, true) :=
  ParseMessage_zero_on_syntax_error (fun _ => none) "not json" rfl

lemma lookupPending_deletePending (l : List (String × ApprovalRequest)) (id0 : String) :
    lookupPending (deletePending l id0) id0 = none := by
  induction l with
  | nil => rfl
  | cons p rest ih =>
      by_cases h : p.fst = id0
      · simpa [deletePending, h] using ih
      · obtain ⟨k, v⟩ := p
        simp only [] at h
        simpa [deletePending, lookupPending, h] using ih

/-- C3.  A ticket resolves at most once: after a successful `Resolve`,
any further `Resolve` of the same id fails with the not-found error and a
timer that fires afterwards is a no-op (no state change, no delivery);
after a timer has resolved the ticket, a late `Resolve` fails the same
way. -/
theorem Resolve_exactly_once (st : ApprovalManagerState) (id0 : String) :
    (∀ (a1 a2 : Bool) (n1 n2 : Nat) (st1 : ApprovalManagerState)
        (r1 : ApprovalRequest) (d1 : ApprovalDecision),
      Resolve st id0 a1 n1 = .ok (st1, r1, d1) →
        Resolve st1 id0 a2 n2 =
          .error ("approval request \"" ++ id0 ++ "\" not found or already resolved") ∧
        timerFire st1 id0 n2 = (st1, none)) ∧
    (∀ (n1 n2 : Nat) (a : Bool) (st1 : ApprovalManagerState)
        (out : ApprovalRequest × ApprovalDecision),
      timerFire st id0 n1 = (st1, some out) →
        Resolve st1 id0 a n2 =
          .error ("approval request \"" ++ id0 ++ "\" not found or already resolved")) := by
  constructor
  · intro a1 a2 n1 n2 st1 r1 d1 hres
    have hpend : st1.pending = deletePending st.pending id0 := by
      unfold Resolve at hres
      cases hl : lookupPending st.pending id0 with
      | none => rw [hl] at hres; cases hres
      | some req =>
          rw [hl] at hres
          simp only [Except.ok.injEq, Prod.mk.injEq] at hres
          rw [← hres.1]
    have hnone : lookupPending st1.pending id0 = none := by
      rw [hpend]; exact lookupPending_deletePending _ _
    constructor
    · unfold Resolve; rw [hnone]
    · unfold timerFire; rw [hnone]
  · intro n1 n2 a st1 out htimer
    have hpend : st1.pending = deletePending st.pending id0 := by
      unfold timerFire at htimer
      cases hl : lookupPending st.pending id0 with
      | none => rw [hl] at htimer; simp at htimer
      | some req =>
          rw [hl] at htimer
          simp only [Prod.mk.injEq] at htimer
          rw [← htimer.1]
    have hnone : lookupPending st1.pending id0 = none := by
      rw [hpend]; exact lookupPending_deletePending _ _
    unfold Resolve; rw [hnone]

/-- Witness for C3 on a concrete one-ticket state: after resolving
`apr-1`, a second resolve fails and a late timer is a no-op. -/
theorem Resolve_exactly_once_witness :
    Resolve { pending := [], nextID := 1 } "apr-1" false 7 =
      .error ("approval request \"apr-1\" not found or already resolved") ∧
    timerFire { pending := [], nextID := 1 } "apr-1" 7 =
      ({ pending := [], nextID := 1 }, none) :=
  (Resolve_exactly_once
      { pending := [("apr-1", { id := "apr-1", decision := "pending" })], nextID := 1 }
      "apr-1").1 true false 5 7
    { pending := [], nextID := 1 }
    { id := "apr-1", decision := "approved", decidedAt := some 5 }
    ApprovalDecision.approved rfl

mutual

theorem walkAndScrub_fst (ps : List PiiPattern) :
    (v : Json) → (walkAndScrub ps v).fst = mapStrings (fun s => (scrubString ps s).fst) v
  | .null => rfl
  | .bool _ => rfl
  | .num _ => rfl
  | .str _ => rfl
  | .obj fields => by
      simp [walkAndScrub, mapStrings, walkFields_fst ps fields]
  | .arr xs => by
      simp [walkAndScrub, mapStrings, walkArr_fst ps xs]

theorem walkFields_fst (ps : List PiiPattern) :
    (fields : List (String × Json)) →
      (walkFields ps fields).fst = mapStringsFields (fun s => (scrubString ps s).fst) fields
  | [] => rfl
  | (k, v) :: rest => by
      simp [walkFields, mapStringsFields, walkAndScrub_fst ps v, walkFields_fst ps rest]

theorem walkArr_fst (ps : List PiiPattern) :
    (xs : List Json) →
      (walkArr ps xs).fst = mapStringsArr (fun s => (scrubString ps s).fst) xs
  | [] => rfl
  | v :: rest => by
      simp [walkArr, mapStringsArr, walkAndScrub_fst ps v, walkArr_fst ps rest]

end

mutual

theorem jsonKeys_mapStrings (f : String → String) :
    (v : Json) → jsonKeys (mapStrings f v) = jsonKeys v
  | .null => rfl
  | .bool _ => rfl
  | .num _ => rfl
  | .str _ => rfl
  | .obj fields => by
      simp [mapStrings, jsonKeys, jsonKeysFields_mapStrings f fields]
  | .arr xs => by
      simp [mapStrings, jsonKeys, jsonKeysArr_mapStrings f xs]

theorem jsonKeysFields_mapStrings (f : String → String) :
    (fields : List (String × Json)) →
      jsonKeysFields (mapStringsFields f fields) = jsonKeysFields fields
  | [] => rfl
  | (k, v) :: rest => by
      simp [mapStringsFields, jsonKeysFields, jsonKeys_mapStrings f v,
            jsonKeysFields_mapStrings f rest]

theorem jsonKeysArr_mapStrings (f : String → String) :
    (xs : List Json) → jsonKeysArr (mapStringsArr f xs) = jsonKeysArr xs
  | [] => rfl
  | v :: rest => by
      simp [mapStringsArr, jsonKeysArr, jsonKeys_mapStrings f v, jsonKeysArr_mapStrings f rest]

end

/-- C6.  The redactor's recursive walk replaces exactly the string
leaves — each by `scrubString`, which substitutes pattern matches with
`[REDACTED:<label>]` — and never touches object keys: the walked value is
the structural string-map of the input, and every object key of the
input survives unchanged (the full key lists coincide). -/
theorem walkAndScrub_preserves_keys (ps : List PiiPattern) (v : Json) :
    (walkAndScrub ps v).fst = mapStrings (fun s => (scrubString ps s).fst) v ∧
    jsonKeys (walkAndScrub ps v).fst = jsonKeys v := by
  refine ⟨walkAndScrub_fst ps v, ?_⟩
  rw [walkAndScrub_fst ps v, jsonKeys_mapStrings]

/-- C7.  For every host→server message the scrubber interceptor is the
identity: the output bytes are the input bytes and the message
(in particular its metadata, so no `scrub_count`) is untouched,
whatever the contents and whether redaction is enabled. -/
theorem scrubberIntercept_hostToServer_identity (enabled : Bool) (ps : List PiiPattern)
    (parseOf : String → Option Json) (msg : InterceptedMessage)
    (h : msg.direction = .hostToServer) :
    scrubberIntercept enabled ps parseOf msg = (msg.rawBytes, msg) := by
  unfold scrubberIntercept
  cases enabled <;> simp [h]

/-- Witness for C7 at a concrete enabled scrubber and host→server
message. -/
theorem scrubberIntercept_hostToServer_identity_witness :
    scrubberIntercept true [] (fun _ => none)
        { direction := .hostToServer, rawBytes := "abc" } =
      ("abc", { direction := .hostToServer, rawBytes := "abc" }) :=
  scrubberIntercept_hostToServer_identity true [] (fun _ => none)
    { direction := .hostToServer, rawBytes := "abc" } rfl

/-! ### Pruning lemmas (claim C8) -/

lemma contains_iff_mem : ∀ (l : List String) (s : String), contains l s = true ↔ s ∈ l
  | [], s => by simp [contains]
  | a :: rest, s => by
      by_cases h : a = s
      · simp [contains, h]
      · rw [contains, if_neg h, contains_iff_mem rest s, List.mem_cons]
        exact ⟨Or.inr, fun hc => hc.resolve_left fun he => h he.symm⟩

lemma splitTools_fst_unparseable (counts : List (String × Nat)) :
    ∀ (tools : List Json) (x : Json), x ∈ (splitTools counts tools).fst →
      unmarshalToolName x = none
  | [], x, hx => by simp [splitTools] at hx
  | raw :: rest, x, hx => by
      rw [splitTools] at hx
      cases hu : unmarshalToolName raw with
      | none =>
          rw [hu] at hx
          simp only [List.mem_cons] at hx
          rcases hx with rfl | hx
          · exact hu
          · exact splitTools_fst_unparseable counts rest x hx
      | some nm =>
          rw [hu] at hx
          exact splitTools_fst_unparseable counts rest x hx

lemma splitTools_snd_parsed (counts : List (String × Nat)) :
    ∀ (tools : List Json) (ti : ToolWithUsage), ti ∈ (splitTools counts tools).snd →
      unmarshalToolName ti.raw = some ti.name ∧ ti.count = lookupCount counts ti.name
  | [], ti, hx => by simp [splitTools] at hx
  | raw :: rest, ti, hx => by
      rw [splitTools] at hx
      cases hu : unmarshalToolName raw with
      | none =>
          rw [hu] at hx
          exact splitTools_snd_parsed counts rest ti hx
      | some nm =>
          rw [hu] at hx
          simp only [List.mem_cons] at hx
          rcases hx with rfl | hx
          · exact ⟨hu, rfl⟩
          · exact splitTools_snd_parsed counts rest ti hx

lemma splitTools_snd_complete (counts : List (String × Nat)) :
    ∀ (tools : List Json) (t : Json) (nm : String), t ∈ tools →
      unmarshalToolName t = some nm →
      (⟨t, nm, lookupCount counts nm⟩ : ToolWithUsage) ∈ (splitTools counts tools).snd
  | raw :: rest, t, nm, hmem, hparse => by
      rw [splitTools]
      rcases List.mem_cons.mp hmem with rfl | hmem2
      · rw [hparse]
        exact List.mem_cons_self _ _
      · cases hu : unmarshalToolName raw with
        | none => exact splitTools_snd_complete counts rest t nm hmem2 hparse
        | some nm2 =>
            exact List.mem_cons_of_mem _ (splitTools_snd_complete counts rest t nm hmem2 hparse)

lemma partitionKept_fst_mem (ks : List String) :
    ∀ (l : List ToolWithUsage) (x : Json),
      x ∈ (partitionKept ks l).fst ↔
        ∃ ti, ti ∈ l ∧ ti.raw = x ∧ contains ks ti.name = true
  | [], x => by simp [partitionKept]
  | ti0 :: rest, x => by
      rw [partitionKept]
      by_cases hc : contains ks ti0.name = true
      · rw [if_pos hc]
        simp only [List.mem_cons]
        constructor
        · rintro (rfl | hx)
          · exact ⟨ti0, Or.inl rfl, rfl, hc⟩
          · obtain ⟨ti, h1, h2, h3⟩ := (partitionKept_fst_mem ks rest x).mp hx
            exact ⟨ti, Or.inr h1, h2, h3⟩
        · rintro ⟨ti, h1 | h1, h2, h3⟩
          · subst h1; exact Or.inl h2.symm
          · exact Or.inr ((partitionKept_fst_mem ks rest x).mpr ⟨ti, h1, h2, h3⟩)
      · rw [if_neg hc]
        constructor
        · intro hx
          obtain ⟨ti, h1, h2, h3⟩ := (partitionKept_fst_mem ks rest x).mp hx
          exact ⟨ti, List.mem_cons_of_mem _ h1, h2, h3⟩
        · rintro ⟨ti, h1, h2, h3⟩
          rcases List.mem_cons.mp h1 with rfl | h1
          · exact absurd h3 hc
          · exact (partitionKept_fst_mem ks rest x).mpr ⟨ti, h1, h2, h3⟩

lemma applyPruning_kept_mem (cfg : PruneConfig) (counts : List (String × Nat))
    (tools : List Json) (t : Json) (nm : String)
    (hus : 0 < cfg.unusedSessions) (htop : cfg.keepTopK = 0)
    (hmem : t ∈ tools) (hparse : unmarshalToolName t = some nm) :
    t ∈ (applyPruning cfg tools counts).fst ↔
      1 ≤ lookupCount counts nm ∨ contains cfg.alwaysKeep nm = true := by
  have hks : applyKeepTopK cfg (splitTools counts tools).snd
      (keepSetUnused cfg (splitTools counts tools).snd) =
      keepSetUnused cfg (splitTools counts tools).snd := by
    simp [applyKeepTopK, htop]
  have hkeep : ∀ s,
      contains (keepSetUnused cfg (splitTools counts tools).snd ++ cfg.alwaysKeep) s = true ↔
        ((∃ ti, ti ∈ (splitTools counts tools).snd ∧ ti.name = s ∧
            (contains cfg.alwaysKeep s = true ∨ 0 < ti.count)) ∨
          contains cfg.alwaysKeep s = true) := by
    intro s
    rw [contains_iff_mem, List.mem_append, keepSetUnused, if_pos hus]
    constructor
    · rintro (hh | hh)
      · obtain ⟨ti, hfil, hname⟩ := List.mem_map.mp hh
        obtain ⟨hin, hcond⟩ := List.mem_filter.mp hfil
        simp only [Bool.or_eq_true, decide_eq_true_eq] at hcond
        rcases hcond with hcond | hcond
        · exact Or.inl ⟨ti, hin, hname, Or.inl (by rw [← hname]; exact hcond)⟩
        · exact Or.inl ⟨ti, hin, hname, Or.inr hcond⟩
      · exact Or.inr ((contains_iff_mem _ _).mpr hh)
    · rintro (⟨ti, hin, hname, hcond | hcond⟩ | hh)
      · refine Or.inl (List.mem_map.mpr ⟨ti, List.mem_filter.mpr ⟨hin, ?_⟩, hname⟩)
        simp only [Bool.or_eq_true, decide_eq_true_eq]
        exact Or.inl (by rw [hname]; exact hcond)
      · refine Or.inl (List.mem_map.mpr ⟨ti, List.mem_filter.mpr ⟨hin, ?_⟩, hname⟩)
        simp only [Bool.or_eq_true, decide_eq_true_eq]
        exact Or.inr hcond
      · exact Or.inr ((contains_iff_mem _ _).mp hh)
  rw [applyPruning]
  simp only [hks, List.mem_append]
  constructor
  · rintro (hx | hx)
    · exact absurd hparse (by rw [splitTools_fst_unparseable counts tools t hx]; simp)
    · obtain ⟨ti, hin, hraw, hcont⟩ := (partitionKept_fst_mem _ _ _).mp hx
      obtain ⟨hup, hcnt⟩ := splitTools_snd_parsed counts tools ti hin
      have hnm : ti.name = nm := by
        rw [hraw, hparse] at hup
        exact (Option.some.inj hup).symm
      rcases (hkeep ti.name).mp hcont with ⟨tj, hjin, hjname, hjc | hjc⟩ | hc
      · exact Or.inr (by rwa [← hnm])
      · obtain ⟨_, hjcnt⟩ := splitTools_snd_parsed counts tools tj hjin
        have heq : lookupCount counts nm = tj.count := by
          rw [← hnm, ← hjname, hjcnt]
        exact Or.inl (by omega)
      · exact Or.inr (by rwa [← hnm])
  · intro hcond
    have hin := splitTools_snd_complete counts tools t nm hmem hparse
    have hcont : contains (keepSetUnused cfg (splitTools counts tools).snd ++ cfg.alwaysKeep)
        nm = true := by
      rcases hcond with hc | hc
      · exact (hkeep nm).mpr (Or.inl ⟨_, hin, rfl, Or.inr (show 0 < lookupCount counts nm by omega)⟩)
      · exact (hkeep nm).mpr (Or.inr hc)
    exact Or.inr ((partitionKept_fst_mem _ _ _).mpr ⟨_, hin, rfl, hcont⟩)

lemma lookupMeta_mdSet (md : List (String × MetaVal)) (k : String) (v : MetaVal) :
    lookupMeta (mdSet md k v) k = some v := by
  induction md with
  | nil => simp [mdSet, lookupMeta]
  | cons p rest ih =>
      by_cases h : p.fst = k
      · simpa [mdSet, List.filter_cons, h] using ih
      · simpa [mdSet, List.filter_cons, lookupMeta, h] using ih

lemma metaGet_setMeta (msg : InterceptedMessage) (k : String) (v : MetaVal) :
    metaGet (setMeta msg k v) k = some v := by
  simp [metaGet, setMeta, lookupMeta_mdSet]

lemma handleToolsListResponse_pruned (cfg : PruneConfig) (counts : List (String × Nat))
    (msg : InterceptedMessage) (pending : PendingRequest) (fs : List (String × Json))
    (toolsOpt : Option (List Json)) (i : Json)
    (hus : 0 < cfg.unusedSessions)
    (hres : msg.parsed.result = some (Json.obj fs))
    (hdec : unmarshalToolsList (Json.obj fs) = some toolsOpt)
    (hid : msg.parsed.id = some i)
    (hpr : (applyPruning cfg (toolsOpt.getD []) counts).snd.length ≠ 0) :
    metaGet (handleToolsListResponse cfg counts msg pending).fst MetaKeyToolsPruned =
      some (.natV (applyPruning cfg (toolsOpt.getD []) counts).snd.length) ∧
    ∃ fields, (handleToolsListResponse cfg counts msg pending).snd.fst =
        .forward (serialize (Json.obj fields)) ∧ lookupField fields "id" = some i := by
  have hen : cfg.enabled = true := by
    simp only [PruneConfig.enabled, Bool.or_eq_true, decide_eq_true_eq]
    exact Or.inl hus
  have hout : handleToolsListResponse cfg counts msg pending =
      (setMeta msg MetaKeyToolsPruned
         (.natV (applyPruning cfg (toolsOpt.getD []) counts).snd.length),
       .forward (rebuildResponse
         (setMeta msg MetaKeyToolsPruned
           (.natV (applyPruning cfg (toolsOpt.getD []) counts).snd.length))
         (applyPruning cfg (toolsOpt.getD []) counts).fst),
       (toolsOpt.getD []).filterMap (fun raw =>
         (decodeToolRecord raw).map (fun t =>
           ({ sessionID := pending.sessionID, toolName := t.fst,
              description := t.snd } : ToolRecord)))) := by
    rw [handleToolsListResponse]
    simp only [hres, hdec]
    simp [hen, hpr]
  rw [hout]
  constructor
  · exact metaGet_setMeta _ _ _
  · refine ⟨[("jsonrpc", Json.str "2.0"), ("id", i),
      ("result", Json.obj (sortFields (rebuildResultFields fs
        (applyPruning cfg (toolsOpt.getD []) counts).fst)))], ?_, ?_⟩
    · have hrb : rebuildEnvelope (setMeta msg MetaKeyToolsPruned
          (.natV (applyPruning cfg (toolsOpt.getD []) counts).snd.length))
          (applyPruning cfg (toolsOpt.getD []) counts).fst =
          some [("jsonrpc", Json.str "2.0"), ("id", i),
            ("result", Json.obj (sortFields (rebuildResultFields fs
              (applyPruning cfg (toolsOpt.getD []) counts).fst)))] := by
        rw [rebuildEnvelope]
        have hp2 : (setMeta msg MetaKeyToolsPruned
            (.natV (applyPruning cfg (toolsOpt.getD []) counts).snd.length)).parsed =
            msg.parsed := rfl
        rw [hp2, hres, hid]
        simp
      rw [rebuildResponse, hrb]
    · simp [lookupField]

/-- C8.  For a correlated `tools/list` response processed with
`unused_sessions > 0` and top-K disabled, a tool whose JSON object
parses is kept by the pruner iff its historical call count is at least 1
or its name is in the always-keep set; and whenever tools were removed,
the handler sets metadata `tools_pruned` to the number of removed tools
and the rebuilt response envelope carries the original id. -/
theorem toolsList_pruning_keep_iff :
    (∀ (cfg : PruneConfig) (counts : List (String × Nat)) (tools : List Json)
        (t : Json) (nm : String),
      0 < cfg.unusedSessions → cfg.keepTopK = 0 → t ∈ tools →
      unmarshalToolName t = some nm →
      (t ∈ (applyPruning cfg tools counts).fst ↔
        1 ≤ lookupCount counts nm ∨ contains cfg.alwaysKeep nm = true)) ∧
    (∀ (cfg : PruneConfig) (counts : List (String × Nat)) (msg : InterceptedMessage)
        (pending : PendingRequest) (fs : List (String × Json))
        (toolsOpt : Option (List Json)) (i : Json),
      0 < cfg.unusedSessions →
      msg.parsed.result = some (Json.obj fs) →
      unmarshalToolsList (Json.obj fs) = some toolsOpt →
      msg.parsed.id = some i →
      (applyPruning cfg (toolsOpt.getD []) counts).snd.length ≠ 0 →
      metaGet (handleToolsListResponse cfg counts msg pending).fst MetaKeyToolsPruned =
          some (.natV (applyPruning cfg (toolsOpt.getD []) counts).snd.length) ∧
      ∃ fields, (handleToolsListResponse cfg counts msg pending).snd.fst =
          .forward (serialize (Json.obj fields)) ∧ lookupField fields "id" = some i) :=
  ⟨fun cfg counts tools t nm h1 h2 h3 h4 =>
      applyPruning_kept_mem cfg counts tools t nm h1 h2 h3 h4,
   fun cfg counts msg pending fs toolsOpt i h1 h2 h3 h4 h5 =>
      handleToolsListResponse_pruned cfg counts msg pending fs toolsOpt i h1 h2 h3 h4 h5⟩

/-- Witness for C8: the spec's pruning scenario — usage
`{read_file: 5}`, `unused_sessions = 3`, always-keep `{delete_file}`,
response id 1 with tools `[read_file, write_file, delete_file]`. -/
theorem toolsList_pruning_keep_iff_witness :
    ((Json.obj [("name", Json.str "write_file"), ("description", Json.str "Write")]) ∈
        (applyPruning scenarioCfg scenarioTools scenarioCounts).fst ↔
      1 ≤ lookupCount scenarioCounts "write_file" ∨
        contains scenarioCfg.alwaysKeep "write_file" = true) ∧
    (metaGet (handleToolsListResponse scenarioCfg scenarioCounts scenarioMsg
          scenarioPending).fst MetaKeyToolsPruned =
        some (.natV ((applyPruning scenarioCfg
          ((some scenarioTools : Option (List Json)).getD []) scenarioCounts).snd.length)) ∧
      ∃ fields, (handleToolsListResponse scenarioCfg scenarioCounts scenarioMsg
          scenarioPending).snd.fst = .forward (serialize (Json.obj fields)) ∧
        lookupField fields "id" = some (Json.num 1)) :=
  ⟨toolsList_pruning_keep_iff.1 scenarioCfg scenarioCounts scenarioTools _ "write_file"
      (by decide) rfl (List.mem_cons_of_mem _ (List.mem_cons_self _ _)) rfl,
   toolsList_pruning_keep_iff.2 scenarioCfg scenarioCounts scenarioMsg scenarioPending
      [("tools", Json.arr scenarioTools)] (some scenarioTools) (Json.num 1)
      (by decide) rfl rfl rfl (by decide)⟩

/-! ### Rebuild preservation lemmas (claim C9) -/

lemma lookupLastField_eq_none_iff : ∀ (l : List (String × Json)) (k : String),
    lookupLastField l k = none ↔ k ∉ l.map Prod.fst
  | [], k => by simp [lookupLastField]
  | (k0, v) :: rest, k => by
      rw [lookupLastField]
      cases hl : lookupLastField rest k with
      | some r =>
          simp only [List.map_cons, List.mem_cons]
          constructor
          · intro h; cases h
          · intro h
            exact absurd ((lookupLastField_eq_none_iff rest k).mpr
              (fun hm => h (Or.inr hm))) (by simp [hl])
      | none =>
          have hrest := (lookupLastField_eq_none_iff rest k).mp hl
          by_cases hk : k0 = k
          · simp [hk]
          · have hk2 : ¬ k = k0 := fun h => hk h.symm
            simp [hk, hk2, hrest]

lemma lookupField_dedupLastFields : ∀ (l : List (String × Json)) (k : String),
    lookupField (dedupLastFields l) k = lookupLastField l k
  | [], _ => rfl
  | (k0, v) :: rest, k => by
      rw [dedupLastFields, lookupLastField]
      by_cases hdup : ((rest.map Prod.fst).contains k0 : Bool)
      · rw [if_pos hdup, lookupField_dedupLastFields rest k]
        cases hl : lookupLastField rest k with
        | some r => simp [hl]
        | none =>
            by_cases hk : k0 = k
            · subst hk
              exact absurd ((lookupLastField_eq_none_iff rest k0).mp hl)
                (by simpa [List.contains] using hdup)
            · simp [hl, hk]
      · rw [if_neg hdup, lookupField]
        by_cases hk : k0 = k
        · subst hk
          have hnone : lookupLastField rest k0 = none :=
            (lookupLastField_eq_none_iff rest k0).mpr
              (by simpa [List.contains] using hdup)
          simp [hnone]
        · rw [if_neg hk, lookupField_dedupLastFields rest k]
          cases hl : lookupLastField rest k with
          | some r => simp [hl]
          | none => simp [hl, hk]

lemma lookupField_setMapField_ne : ∀ (l : List (String × Json)) (k key : String) (v : Json),
    key ≠ k → lookupField (setMapField l k v) key = lookupField l key
  | [], k, key, v, h => by
      have hk2 : ¬ k = key := fun he => h he.symm
      simp [setMapField, lookupField, hk2]
  | (k0, v0) :: rest, k, key, v, h => by
      rw [setMapField, List.filter_cons]
      by_cases h0 : k0 = k
      · rw [if_neg (by simp [h0])]
        rw [lookupField, if_neg (fun he : k0 = key => h (h0 ▸ he).symm)]
        exact lookupField_setMapField_ne rest k key v h
      · rw [if_pos (by simp [h0]), List.cons_append, lookupField, lookupField]
        by_cases hk : k0 = key
        · simp [hk]
        · rw [if_neg hk, if_neg hk]
          exact lookupField_setMapField_ne rest k key v h

lemma lookupField_setMapField_self : ∀ (l : List (String × Json)) (k : String) (v : Json),
    lookupField (setMapField l k v) k = some v
  | [], k, v => by simp [setMapField, lookupField]
  | (k0, v0) :: rest, k, v => by
      rw [setMapField, List.filter_cons]
      by_cases h0 : k0 = k
      · rw [if_neg (by simp [h0])]
        exact lookupField_setMapField_self rest k v
      · rw [if_pos (by simp [h0]), List.cons_append, lookupField, if_neg h0]
        exact lookupField_setMapField_self rest k v

lemma insertSortedField_perm (p : String × Json) : ∀ (l : List (String × Json)),
    List.Perm (insertSortedField p l) (p :: l)
  | [] => List.Perm.refl _
  | q :: rest => by
      rw [insertSortedField]
      by_cases h : p.fst < q.fst
      · rw [if_pos h]
      · rw [if_neg h]
        exact ((insertSortedField_perm p rest).cons q).trans (List.Perm.swap p q rest)

lemma sortFields_perm : ∀ (l : List (String × Json)), List.Perm (sortFields l) l
  | [] => List.Perm.refl _
  | p :: rest =>
      (insertSortedField_perm p (sortFields rest)).trans ((sortFields_perm rest).cons p)

/-- C9.  A pruned rebuild preserves the `result` object: every field
other than `tools` keeps its decoded value, `tools` becomes the kept
list, the marshalled (key-sorted) result object is a permutation of
those bindings (nothing added or lost), and whenever the rebuild cannot
decode the result (the error fallback) the original bytes are returned
unchanged. -/
theorem rebuildResponse_preserves_fields :
    (∀ (fs : List (String × Json)) (kept : List Json) (k : String), k ≠ "tools" →
      lookupField (rebuildResultFields fs kept) k = lookupLastField fs k) ∧
    (∀ (fs : List (String × Json)) (kept : List Json),
      lookupField (rebuildResultFields fs kept) "tools" = some (Json.arr kept)) ∧
    (∀ (fs : List (String × Json)) (kept : List Json),
      List.Perm (sortFields (rebuildResultFields fs kept)) (rebuildResultFields fs kept)) ∧
    (∀ (msg : InterceptedMessage) (kept : List Json),
      rebuildEnvelope msg kept = none → rebuildResponse msg kept = msg.rawBytes) := by
  refine ⟨?_, ?_, ?_, ?_⟩
  · intro fs kept k hk
    rw [rebuildResultFields, lookupField_setMapField_ne _ _ _ _ hk,
        lookupField_dedupLastFields]
  · intro fs kept
    rw [rebuildResultFields, lookupField_setMapField_self]
  · intro fs kept
    exact sortFields_perm _
  · intro msg kept h
    rw [rebuildResponse, h]

/-- Witness for C9: the cursor survives a rebuild, and a non-object
result falls back to the original bytes. -/
theorem rebuildResponse_preserves_fields_witness :
    lookupField (rebuildResultFields cursorFields [Json.str "y"]) "nextCursor" =
      lookupLastField cursorFields "nextCursor" ∧
    rebuildResponse badResultMsg [Json.str "y"] = badResultMsg.rawBytes :=
  ⟨rebuildResponse_preserves_fields.1 cursorFields [Json.str "y"] "nextCursor" (by decide),
   rebuildResponse_preserves_fields.2.2.2 badResultMsg [Json.str "y"] rfl⟩

/-- C10.  An empty input line is silently skipped: nothing is written to
the opposite endpoint, the interceptor chain does not run (hence nothing
is logged), and no error is sent — unlike a non-empty unparseable line,
which is forwarded verbatim (also without running the chain). -/
theorem processLine_empty_line_skipped (parseOf : String → Option Json)
    (chain : InterceptedMessage → ChainOutcome × List LogEntry)
    (now : Nat) (sid : String) (dir : Direction) :
    processLine parseOf chain now sid dir "" =
      { wroteToDst := none, ranChain := false, sentBlockError := none, logs := [] } ∧
    (∀ line, line ≠ "" → (ParseMessage parseOf line).snd = true →
      processLine parseOf chain now sid dir line =
        { wroteToDst := some (line ++ "\n"), ranChain := false, sentBlockError := none,
          logs := [] }) := by
  constructor
  · rfl
  · intro line hne hperr
    have hlen : ¬ line.length = 0 := by
      intro h0
      have hdata : line.data = [] := List.length_eq_zero.mp h0
      exact hne (String.ext hdata)
    rw [processLine, if_neg hlen]
    simp [hperr]

/-- Witness for C10's unparseable-forwarding clause at a concrete
non-empty line that fails to parse. -/
theorem processLine_empty_line_skipped_witness :
    processLine (fun _ => none) (fun m => (.forward m.rawBytes, [])) 0 "s" .hostToServer "x" =
      { wroteToDst := some ("x" ++ "\n"), ranChain := false, sentBlockError := none,
        logs := [] } :=
  (processLine_empty_line_skipped (fun _ => none) (fun m => (.forward m.rawBytes, []))
    0 "s" .hostToServer).2 "x" (by decide) rfl

lemma applyAuditMeta_blocked (e : LogEntry) (md : List (String × MetaVal)) :
    (applyAuditMeta e md).blocked = e.blocked := by
  rw [applyAuditMeta]; split <;> rfl

lemma applyScrubMeta_blocked (e : LogEntry) (md : List (String × MetaVal)) :
    (applyScrubMeta e md).blocked = e.blocked := by
  rw [applyScrubMeta]; split <;> rfl

lemma applyRulesMeta_blocked (e : LogEntry) (md : List (String × MetaVal)) :
    (applyRulesMeta e md).blocked = e.blocked := by
  rw [applyRulesMeta]; split <;> rfl

lemma applyActionMeta_blocked (e : LogEntry) (md : List (String × MetaVal)) :
    (applyActionMeta e md).blocked = e.blocked := by
  rw [applyActionMeta]; split <;> rfl

/-- C2 (code bug).  On the spec's deny scenario the pump writes nothing
downstream and answers the sender with the synthesized `-32600` error,
but no log entry is persisted at all: the chain stops at the policy
interceptor, before the logging interceptor (which runs last), and —
second conjunct — the logging interceptor never sets `blocked` on any
entry it does persist, so no message is ever stored with
`blocked = true`. -/
theorem policyDeny_never_persisted_blocked :
    processLine (fun _ => some denyScenarioJson) (fun m => Process denyScenarioChain m)
        0 "s" .hostToServer (serialize denyScenarioJson) =
      { wroteToDst := none, ranChain := true,
        sentBlockError := some (MakeErrorResponse (some (Json.num 9)) (-32600)
          "blocked by policy rule \"block-shell\"" ++ "\n"),
        logs := [] } ∧
    (∀ msg : InterceptedMessage,
      ((loggingIntercept msg).snd.snd.all fun e => ! e.blocked) = true) := by
  constructor
  · rfl
  · intro msg
    rw [loggingIntercept]
    simp only [List.all_cons, List.all_nil, Bool.and_true]
    have hbase : (baseEntry msg).blocked = false := rfl
    have hmeta : (match msg.metadata with
        | none => baseEntry msg
        | some md => applyActionMeta (applyRulesMeta (applyScrubMeta
            (applyAuditMeta (baseEntry msg) md) md) md) md).blocked = false := by
      cases msg.metadata with
      | none => exact hbase
      | some md =>
          rw [applyActionMeta_blocked, applyRulesMeta_blocked, applyScrubMeta_blocked,
              applyAuditMeta_blocked]
          exact hbase
    split
    · rw [Bool.not_eq_true']
      exact hmeta
    · rw [Bool.not_eq_true']
      exact hmeta
